import Mathlib

set_option maxRecDepth 10000

/-!
Verification of the lexical-retrieval core of the kinneckt-hr-backend
repository (files `build_hr_kb.py` and `kinneckt_hr_assistant_app.py`).

The Python code is shallowly embedded:

* strings are `String` / `List Char` (the Python code slices by code points);
* floating-point numbers are modelled by real numbers `ℝ`;
* the pickle file at `INDEX_PATH` is modelled by an `Option Snapshot`
  (`none` = the file does not exist);
* `numpy.argsort` (ascending, ties modelled as stable, i.e. by index —
  exactly what numpy's insertion sort does on small arrays) is modelled by
  `List.insertionSort` under the lexicographic key (value, index);
* exceptions are modelled with `Except`.
-/

namespace KinnecktHR

/-! ### Data model

`extract_text_from_pdfs` in `build_hr_kb.py` produces dictionaries
`{"source": pdf_path.name, "page": page_num + 1, "text": snippet}`. -/

/-- A chunk record as built by `extract_text_from_pdfs`. -/
structure Chunk where
  source : String
  page : Nat
  text : String
deriving DecidableEq, Repr

instance : Inhabited Chunk := ⟨⟨"", 0, ""⟩⟩

/-- One source PDF: its file name and, per page, the text extracted from it.
`none` models a page whose `page.extract_text()` raised an exception (the
`try/except` in `build_hr_kb.py` turns that into `""`); `some t` models a
page that extracted to the raw string `t` (`extract_text() or ""` also maps
Python `None` to `""`, which we represent as `some ""` or `none` alike). -/
structure Doc where
  name : String
  pages : List (Option String)

/-- Raw text of a page after the `try/except` and the `or ""` guard. -/
def pageText : Option String → String
  | none => ""
  | some t => t

/-! ### Whitespace normalization: `" ".join(raw_text.split())` -/

/-- Maximal runs of characters satisfying `p`, in order (characters failing
`p` act as separators and are discarded).  `splitRuns (!·.isWhitespace) l`
is Python's `str.split()` on the character list `l`. -/
def splitRuns (p : Char → Bool) (l : List Char) : List (List Char) :=
  let step : Char → List (List Char) × List Char → List (List Char) × List Char :=
    fun c acc =>
      if p c then (acc.1, c :: acc.2)
      else if acc.2 = [] then (acc.1, []) else (acc.2 :: acc.1, [])
  let r := l.foldr step ([], [])
  if r.2 = [] then r.1 else r.2 :: r.1

/-- Python `" ".join(raw_text.split())`: collapse whitespace runs to single
spaces and trim both ends. -/
def normalizeWs (s : String) : String :=
  String.intercalate " " ((splitRuns (fun c => !c.isWhitespace) s.data).map String.mk)

/-- Python `str.strip()`: drop leading and trailing whitespace
(`search_kb` tests `not query.strip()`). -/
def pyStrip (s : String) : String :=
  String.mk (((s.data.dropWhile Char.isWhitespace).reverse.dropWhile Char.isWhitespace).reverse)

/-! ### The 900-character window split

`build_hr_kb.py`:
```
max_len = 900
for start in range(0, len(text), max_len):
    snippet = text[start:start + max_len]
```
`range(0, n, 900)` enumerates `900*i` for `i < ⌈n / 900⌉`. -/

/-- Number of iterations of `range(0, n, 900)`, i.e. `⌈n / 900⌉`. -/
def numWindows (n : Nat) : Nat := (n + 899) / 900

/-- The list of snippets `text[start:start+900]` for
`start in range(0, len(text), 900)`. -/
def windows (l : List Char) : List (List Char) :=
  (List.range (numWindows l.length)).map (fun i => (l.drop (900 * i)).take 900)

/-- The chunks that one page contributes in `extract_text_from_pdfs`:
normalize whitespace, skip the page if the result is empty, otherwise emit
one chunk per 900-character window.  `page_num` is the 0-based index from
`enumerate(reader.pages)`; the stored page number is `page_num + 1`. -/
def pageChunks (name : String) (page_num : Nat) (p : Option String) : List Chunk :=
  let text := normalizeWs (pageText p)
  if text = "" then []
  else (windows text.data).map (fun w => { source := name, page := page_num + 1, text := String.mk w })

/-- `extract_text_from_pdfs`: all chunks of all pages of all documents, in
document order, then page order, then window order. -/
def extract_text_from_pdfs (docs : List Doc) : List Chunk :=
  docs.flatMap (fun d => d.pages.enum.flatMap (fun pp => pageChunks d.name pp.1 pp.2))

/-! ### Tokenization (sklearn `TfidfVectorizer(stop_words="english")`)

sklearn's default word analyzer lowercases the text, extracts the maximal
runs matching `\w\w+` (word characters, length at least two) and then drops
English stop words. -/

/-- A word character in the sense of the regex `\w` (the corpus is ASCII). -/
def isWordChar (c : Char) : Bool := c.isAlphanum || c == '_'

/-- The token list of sklearn's default `token_pattern` `\w\w+`: maximal
word-character runs of length at least 2, after lowercasing. -/
def wordTokens (s : String) : List String :=
  ((splitRuns isWordChar (s.data.map Char.toLower)).filter (fun r => 2 ≤ r.length)).map String.mk

/-- sklearn's frozen `ENGLISH_STOP_WORDS` list (`stop_words="english"`). -/
def ENGLISH_STOP_WORDS : List String :=
  ["a", "about", "above", "across", "after", "afterwards", "again", "against",
   "all", "almost", "alone", "along", "already", "also", "although", "always",
   "am", "among", "amongst", "amoungst", "amount", "an", "and", "another",
   "any", "anyhow", "anyone", "anything", "anyway", "anywhere", "are",
   "around", "as", "at", "back", "be", "became", "because", "become",
   "becomes", "becoming", "been", "before", "beforehand", "behind", "being",
   "below", "beside", "besides", "between", "beyond", "bill", "both",
   "bottom", "but", "by", "call", "can", "cannot", "cant", "co", "con",
   "could", "couldnt", "cry", "de", "describe", "detail", "do", "done",
   "down", "due", "during", "each", "eg", "eight", "either", "eleven",
   "else", "elsewhere", "empty", "enough", "etc", "even", "ever", "every",
   "everyone", "everything", "everywhere", "except", "few", "fifteen",
   "fifty", "fill", "find", "fire", "first", "five", "for", "former",
   "formerly", "forty", "found", "four", "from", "front", "full", "further",
   "get", "give", "go", "had", "has", "hasnt", "have", "he", "hence", "her",
   "here", "hereafter", "hereby", "herein", "hereupon", "hers", "herself",
   "him", "himself", "his", "how", "however", "hundred", "i", "ie", "if",
   "in", "inc", "indeed", "interest", "into", "is", "it", "its", "itself",
   "keep", "last", "latter", "latterly", "least", "less", "ltd", "made",
   "many", "may", "me", "meanwhile", "might", "mill", "mine", "more",
   "moreover", "most", "mostly", "move", "much", "must", "my", "myself",
   "name", "namely", "neither", "never", "nevertheless", "next", "nine",
   "no", "nobody", "none", "noone", "nor", "not", "nothing", "now",
   "nowhere", "of", "off", "often", "on", "once", "one", "only", "onto",
   "or", "other", "others", "otherwise", "our", "ours", "ourselves", "out",
   "over", "own", "part", "per", "perhaps", "please", "put", "rather", "re",
   "same", "see", "seem", "seemed", "seeming", "seems", "serious", "several",
   "she", "should", "show", "side", "since", "sincere", "six", "sixty",
   "so", "some", "somehow", "someone", "something", "sometime", "sometimes",
   "somewhere", "still", "such", "system", "take", "ten", "than", "that",
   "the", "their", "them", "themselves", "then", "thence", "there",
   "thereafter", "thereby", "therefore", "therein", "thereupon", "these",
   "they", "thick", "thin", "third", "this", "those", "though", "three",
   "through", "throughout", "thru", "thus", "to", "together", "too", "top",
   "toward", "towards", "twelve", "twenty", "two", "un", "under", "until",
   "up", "upon", "us", "very", "via", "was", "we", "well", "were", "what",
   "whatever", "when", "whence", "whenever", "where", "whereafter",
   "whereas", "whereby", "wherein", "whereupon", "wherever", "whether",
   "which", "while", "whither", "who", "whoever", "whole", "whom", "whose",
   "why", "will", "with", "within", "without", "would", "yet", "you",
   "your", "yours", "yourself", "yourselves"]

/-- sklearn's analyzer: tokens of a text with stop words removed. -/
def analyze (s : String) : List String :=
  (wordTokens s).filter (fun t => t ∉ ENGLISH_STOP_WORDS)

/-- The fitted vocabulary: all distinct analyzer tokens of the corpus, in
sorted order (sklearn assigns indices by sorting the vocabulary). -/
def vocabulary (ts : List String) : List String :=
  List.insertionSort (· ≤ ·) (ts.flatMap analyze).dedup

/-- Document frequency of term `t`: in how many corpus texts it occurs. -/
def df (ts : List String) (t : String) : Nat :=
  ts.countP (fun d => t ∈ analyze d)

/-! ### Real-valued layer: TF-IDF weights, L2 normalization, cosine
similarity.  Floating-point arithmetic is modelled by `ℝ`. -/

/-- Dot product of two weight vectors (trailing entries of the longer
vector are ignored; all vectors handled here have equal length). -/
noncomputable def dot (u v : List ℝ) : ℝ := (List.zipWith (· * ·) u v).sum

/-- Euclidean norm of a weight vector. -/
noncomputable def l2norm (v : List ℝ) : ℝ := Real.sqrt (dot v v)

/-- sklearn `normalize(..., norm="l2")`: divide by the Euclidean norm;
rows of norm zero are left unchanged (sklearn substitutes norm 1). -/
noncomputable def l2normalize (v : List ℝ) : List ℝ :=
  if l2norm v = 0 then v else v.map (· / l2norm v)

/-- sklearn's smoothed idf (`smooth_idf=True`, the default):
`ln((1 + n) / (1 + df)) + 1` for corpus size `n`. -/
noncomputable def idfValue (n dfv : Nat) : ℝ :=
  Real.log ((1 + (n : ℝ)) / (1 + (dfv : ℝ))) + 1

/-- The fitted idf vector, aligned with `vocabulary ts`. -/
noncomputable def idfs (ts : List String) : List ℝ :=
  (vocabulary ts).map (fun t => idfValue ts.length (df ts t))

/-- Unnormalized tf-idf vector of one text: per vocabulary term, its raw
count in the text times the fitted idf weight. -/
noncomputable def rawVec (vocab : List String) (idfv : List ℝ) (text : String) : List ℝ :=
  (vocab.zip idfv).map (fun p => ((analyze text).count p.1 : ℝ) * p.2)

/-- `vectorizer.transform([text])`: tf-idf weights, L2-normalized. -/
noncomputable def transform (vocab : List String) (idfv : List ℝ) (text : String) : List ℝ :=
  l2normalize (rawVec vocab idfv text)

/-- The pickled index `{"chunks": ..., "vectorizer": ..., "matrix": ...}`:
the chunk list, the fitted vectorizer state (vocabulary and idf vector),
and the tf-idf row matrix. -/
structure Snapshot where
  chunks : List Chunk
  vocab : List String
  idf : List ℝ
  matrix : List (List ℝ)

/-- The index data `vectorizer.fit_transform` produces for a chunk list. -/
noncomputable def buildData (cs : List Chunk) : Snapshot :=
  let ts := cs.map Chunk.text
  ⟨cs, vocabulary ts, idfs ts, ts.map (fun t => transform (vocabulary ts) (idfs ts) t)⟩

/-- Failure modes of `build_index` in `build_hr_kb.py`: the
`FileNotFoundError` raised when `KB_DIR` is missing, and the error raised
by `fit_transform` when the corpus yields an empty vocabulary — in
particular whenever no chunks were produced (the spec's
`EmptyCorpusError`). -/
inductive BuildError where
  | fileNotFound
  | emptyCorpus
deriving DecidableEq, Repr

/-- `build_index`: fail if the knowledge-base directory is missing, read
the PDFs into chunks, fit the tf-idf index (failing on an empty
vocabulary, as `sklearn` does), and return the data to be pickled. -/
noncomputable def build_index (kbDirExists : Bool) (docs : List Doc) : Except BuildError Snapshot :=
  if !kbDirExists then .error .fileNotFound
  else
    let chunks := extract_text_from_pdfs docs
    if vocabulary (chunks.map Chunk.text) = [] then .error .emptyCorpus
    else .ok (buildData chunks)

/-- Effect of running `build_index` on the index file at `INDEX_PATH`:
the pickle is written only after a successful fit, so on any error the
previous file contents survive unchanged. -/
noncomputable def run_build_index (kbDirExists : Bool) (docs : List Doc)
    (indexFile : Option Snapshot) : Option Snapshot :=
  match build_index kbDirExists docs with
  | .ok s => some s
  | .error _ => indexFile

/-- The spec's load failure: the snapshot file does not exist. -/
inductive LoadError where
  | indexNotFound
deriving DecidableEq, Repr

/-- `load_kb` viewed as the spec's `load` operation: a missing index file
is the `IndexNotFoundError` condition (the app logs a warning for it). -/
def load_kb (indexFile : Option Snapshot) : Except LoadError Snapshot :=
  match indexFile with
  | some s => .ok s
  | none => .error .indexNotFound

/-- The global `kb_index` after `load_kb` ran: the app maps the missing
file condition to `kb_index = None` and keeps serving. -/
def kbIndexAfterLoad (indexFile : Option Snapshot) : Option Snapshot :=
  (load_kb indexFile).toOption

/-- A retrieval result of `search_kb`:
`{"source": ..., "page": ..., "text": ..., "score": float(sims[idx])}`. -/
structure ScoredChunk where
  source : String
  page : Nat
  text : String
  score : ℝ

/-- `sklearn.metrics.pairwise.cosine_similarity` on two single vectors:
both arguments are L2-normalized (zero vectors stay zero) and dotted. -/
noncomputable def cosine_similarity (u v : List ℝ) : ℝ :=
  dot (l2normalize u) (l2normalize v)

/-- `cosine_similarity(q_vec, matrix)[0]`: similarity of the query vector
against every row of the chunk matrix. -/
noncomputable def simsOf (s : Snapshot) (query : String) : List ℝ :=
  s.matrix.map (fun row => cosine_similarity (transform s.vocab s.idf query) row)

/-- Ascending comparison used to model `numpy.argsort` on the similarity
array `xs`: by value, ties by index (argsort ties are modelled as stable,
which is numpy's behavior on small arrays). -/
def simLe (xs : List ℝ) (i j : Nat) : Prop :=
  xs.getD i 0 < xs.getD j 0 ∨ (xs.getD i 0 = xs.getD j 0 ∧ i ≤ j)

noncomputable instance (xs : List ℝ) : DecidableRel (simLe xs) :=
  fun _ _ => Classical.propDecidable _

instance (xs : List ℝ) : IsTotal Nat (simLe xs) where
  total i j := by
    rcases lt_trichotomy (xs.getD i 0) (xs.getD j 0) with h | h | h
    · exact Or.inl (Or.inl h)
    · rcases Nat.le_total i j with hij | hij
      · exact Or.inl (Or.inr ⟨h, hij⟩)
      · exact Or.inr (Or.inr ⟨h.symm, hij⟩)
    · exact Or.inr (Or.inl h)

instance (xs : List ℝ) : IsTrans Nat (simLe xs) where
  trans i j k hij hjk := by
    rcases hij with h₁ | ⟨e₁, le₁⟩
    · rcases hjk with h₂ | ⟨e₂, _⟩
      · exact Or.inl (h₁.trans h₂)
      · exact Or.inl (e₂ ▸ h₁)
    · rcases hjk with h₂ | ⟨e₂, le₂⟩
      · exact Or.inl (e₁ ▸ h₂)
      · exact Or.inr ⟨e₁.trans e₂, le₁.trans le₂⟩

/-- `sims.argsort()[::-1]`: indices of `xs` sorted ascending by value
(ties by position), then reversed. -/
noncomputable def argsortDesc (xs : List ℝ) : List Nat :=
  (List.insertionSort (simLe xs) (List.range xs.length)).reverse

/-- The dictionary appended to `results` for index `idx`:
`{"source": c["source"], "page": c["page"], "text": c["text"],
"score": float(sims[idx])}` with `c = chunks[idx]`. -/
noncomputable def resultAt (s : Snapshot) (sims : List ℝ) (idx : Nat) : ScoredChunk :=
  { source := (s.chunks.getD idx default).source
    page := (s.chunks.getD idx default).page
    text := (s.chunks.getD idx default).text
    score := sims.getD idx 0 }

/-- `search_kb(query, top_k)` from `kinneckt_hr_assistant_app.py`, with the
global `kb_index` passed explicitly.  Returns `[]` when the index is absent
or the query strips to empty; otherwise ranks every chunk by cosine
similarity (`top_indices = sims.argsort()[::-1][:top_k]`) and returns the
corresponding scored chunks. -/
noncomputable def search_kb (kb_index : Option Snapshot) (query : String) (top_k : Nat) :
    List ScoredChunk :=
  match kb_index with
  | none => []
  | some s =>
    if pyStrip query = "" then []
    else
      let sims := simsOf s query
      let top_indices := (argsortDesc sims).take top_k
      top_indices.map (resultAt s sims)

/-- A two-chunk corpus whose two chunks have identical text (so their
tf-idf rows, and hence their scores for any query, are identical). -/
def ceChunks : List Chunk :=
  [{ source := "a.pdf", page := 1, text := "vacation" },
   { source := "b.pdf", page := 1, text := "vacation" }]

/-! ### Lemmas about the 900-character window split -/

theorem windows_nil : windows ([] : List Char) = [] := rfl

theorem windows_cons {l : List Char} (h : l ≠ []) :
    windows l = l.take 900 :: windows (l.drop 900) := by
  have hn : 0 < l.length := List.length_pos.mpr h
  have hw : numWindows l.length = numWindows (l.drop 900).length + 1 := by
    rw [List.length_drop]; unfold numWindows; omega
  have htail : ∀ i ∈ List.range (numWindows (l.drop 900).length),
      List.take 900 (List.drop (900 * Nat.succ i) l)
        = List.take 900 (List.drop (900 * i) (List.drop 900 l)) := by
    intro i _
    have hm : 900 * Nat.succ i = 900 + 900 * i := by omega
    rw [List.drop_drop, hm]
  unfold windows
  rw [hw, List.range_succ_eq_map, List.map_cons, List.map_map]
  exact congrArg₂ List.cons (by simp) (List.map_congr_left htail)

theorem windows_flatten_aux :
    ∀ (n : Nat) (l : List Char), l.length ≤ n → (windows l).flatten = l := by
  intro n
  induction n with
  | zero =>
    intro l hl
    have : l = [] := by cases l <;> simp_all
    subst this
    simp [windows_nil]
  | succ n ih =>
    intro l hl
    by_cases h : l = []
    · subst h; simp [windows_nil]
    · have hn : 0 < l.length := List.length_pos.mpr h
      rw [windows_cons h, List.flatten_cons,
        ih (l.drop 900) (by rw [List.length_drop]; omega), List.take_append_drop]

/-- The windows of a page concatenate back to exactly the page text:
no overlap, no characters dropped. -/
theorem windows_flatten (l : List Char) : (windows l).flatten = l :=
  windows_flatten_aux l.length l le_rfl

/-- Every window is non-empty and at most 900 characters long. -/
theorem mem_windows {l w : List Char} (hw : w ∈ windows l) :
    w ≠ [] ∧ w.length ≤ 900 := by
  rw [windows] at hw
  obtain ⟨i, hi, rfl⟩ := List.mem_map.mp hw
  have hi' : i < numWindows l.length := List.mem_range.mp hi
  have h1 : 900 * i < l.length := by unfold numWindows at hi'; omega
  refine ⟨?_, by rw [List.length_take]; omega⟩
  rw [Ne, List.take_eq_nil_iff]
  rintro (h | h)
  · omega
  · have := congrArg List.length h
    rw [List.length_drop] at this
    simp at this
    omega

/-- All windows except possibly the last have length exactly 900. -/
theorem windows_getD_length {l : List Char} {i : Nat} (h : i + 1 < (windows l).length) :
    ((windows l).getD i []).length = 900 := by
  have hlen : (windows l).length = numWindows l.length := by
    rw [windows, List.length_map, List.length_range]
  have hi : i < (windows l).length := by omega
  rw [List.getD_eq_getElem _ _ hi]
  rw [hlen] at h hi
  unfold windows
  simp only [List.getElem_map, List.getElem_range, List.length_take, List.length_drop]
  unfold numWindows at h
  omega

/-- A non-empty page of at most 900 characters is a single window. -/
theorem windows_of_le {l : List Char} (h0 : l ≠ []) (h : l.length ≤ 900) :
    windows l = [l] := by
  rw [windows_cons h0, List.take_of_length_le h, List.drop_eq_nil_of_le h, windows_nil]

/-- A page of exactly 901 characters splits into a 900-window and a
1-window. -/
theorem windows_of_901 {l : List Char} (h : l.length = 901) :
    windows l = [l.take 900, l.drop 900] := by
  have h0 : l ≠ [] := by intro hl; subst hl; simp at h
  have hd : (l.drop 900).length = 1 := by rw [List.length_drop]; omega
  have hd0 : l.drop 900 ≠ [] := by
    intro hl; rw [hl] at hd; simp at hd
  rw [windows_cons h0, windows_of_le hd0 (by omega)]

theorem string_mk_ne_empty {w : List Char} (h : w ≠ []) : String.mk w ≠ "" := by
  intro he
  exact h (congrArg String.data he)

/-! ### Lemmas about `pageChunks` and `extract_text_from_pdfs` -/

theorem pageChunks_of_blank {name : String} {i : Nat} {p : Option String}
    (h : normalizeWs (pageText p) = "") : pageChunks name i p = [] := by
  simp [pageChunks, h]

theorem pageChunks_none (name : String) (i : Nat) : pageChunks name i none = [] := by
  apply pageChunks_of_blank
  rfl

theorem mem_pageChunks_text_ne_empty {name : String} {i : Nat} {p : Option String} {c : Chunk}
    (hc : c ∈ pageChunks name i p) : c.text ≠ "" := by
  rw [pageChunks] at hc
  by_cases h : normalizeWs (pageText p) = ""
  · simp [h] at hc
  · simp only [if_neg h, List.mem_map] at hc
    obtain ⟨w, hw, rfl⟩ := hc
    exact string_mk_ne_empty (mem_windows hw).1

theorem pageChunks_flatten (name : String) (i : Nat) (p : Option String) :
    ((pageChunks name i p).map (fun c => c.text.data)).flatten
      = (normalizeWs (pageText p)).data := by
  by_cases h : normalizeWs (pageText p) = ""
  · rw [pageChunks_of_blank h, h]
    rfl
  · simp only [pageChunks, if_neg h, List.map_map]
    have : ((fun c : Chunk => c.text.data) ∘ fun w : List Char =>
        ({ source := name, page := i + 1, text := String.mk w } : Chunk)) = id := by
      funext w
      rfl
    rw [this, List.map_id, windows_flatten]

theorem mem_extract_text_ne_empty {docs : List Doc} {c : Chunk}
    (hc : c ∈ extract_text_from_pdfs docs) : c.text ≠ "" := by
  rw [extract_text_from_pdfs] at hc
  simp only [List.mem_flatMap] at hc
  obtain ⟨d, _, hc⟩ := hc
  obtain ⟨pp, _, hc⟩ := hc
  exact mem_pageChunks_text_ne_empty hc

/-! ### Lemmas about dot products, norms and L2 normalization -/

theorem dot_nil_right (u : List ℝ) : dot u [] = 0 := by cases u <;> rfl

theorem dot_cons (a b : ℝ) (u v : List ℝ) :
    dot (a :: u) (b :: v) = a * b + dot u v := by
  simp [dot]

theorem dot_self_nonneg (v : List ℝ) : 0 ≤ dot v v := by
  induction v with
  | nil => simp [dot]
  | cons a v ih => rw [dot_cons]; nlinarith [mul_self_nonneg a]

theorem dot_nonneg {u v : List ℝ} (hu : ∀ x ∈ u, 0 ≤ x) (hv : ∀ x ∈ v, 0 ≤ x) :
    0 ≤ dot u v := by
  induction u generalizing v with
  | nil => simp [dot]
  | cons a u ih =>
    cases v with
    | nil => rw [dot_nil_right]
    | cons b v =>
      rw [dot_cons]
      have ha : 0 ≤ a := hu a (by simp)
      have hb : 0 ≤ b := hv b (by simp)
      have hr := ih (fun x hx => hu x (List.mem_cons_of_mem a hx))
        (fun x hx => hv x (List.mem_cons_of_mem b hx))
      nlinarith

theorem dot_le_avg (u v : List ℝ) : dot u v ≤ (dot u u + dot v v) / 2 := by
  induction u generalizing v with
  | nil =>
    have h0 : dot [] v = 0 := rfl
    have h1 : dot ([] : List ℝ) [] = 0 := rfl
    rw [h0, h1]
    linarith [dot_self_nonneg v]
  | cons a u ih =>
    cases v with
    | nil =>
      rw [dot_nil_right, dot_nil_right]
      linarith [dot_self_nonneg (a :: u)]
    | cons b v =>
      have h := ih v
      rw [dot_cons, dot_cons, dot_cons]
      nlinarith [sq_nonneg (a - b)]

theorem dot_map_div (u v : List ℝ) (c : ℝ) :
    dot (u.map (· / c)) (v.map (· / c)) = dot u v / (c * c) := by
  induction u generalizing v with
  | nil => simp [dot]
  | cons a u ih =>
    cases v with
    | nil => simp [dot_nil_right]
    | cons b v =>
      simp only [List.map_cons]
      rw [dot_cons, dot_cons, ih, div_mul_div_comm, div_add_div_same]

theorem dot_eq_zero_left {u : List ℝ} (hu : ∀ x ∈ u, x = 0) (v : List ℝ) :
    dot u v = 0 := by
  induction u generalizing v with
  | nil => simp [dot]
  | cons a u ih =>
    cases v with
    | nil => exact dot_nil_right _
    | cons b v =>
      rw [dot_cons, hu a (by simp), ih (fun x hx => hu x (List.mem_cons_of_mem a hx)) v]
      ring

theorem l2norm_nonneg (v : List ℝ) : 0 ≤ l2norm v := Real.sqrt_nonneg _

theorem l2norm_eq_zero_iff (v : List ℝ) : l2norm v = 0 ↔ dot v v = 0 :=
  Real.sqrt_eq_zero (dot_self_nonneg v)

theorem dot_self_l2normalize_le_one (v : List ℝ) :
    dot (l2normalize v) (l2normalize v) ≤ 1 := by
  by_cases h : l2norm v = 0
  · rw [l2normalize, if_pos h, (l2norm_eq_zero_iff v).mp h]
    norm_num
  · rw [l2normalize, if_neg h, dot_map_div]
    have hsq : l2norm v * l2norm v = dot v v := Real.mul_self_sqrt (dot_self_nonneg v)
    have hne : dot v v ≠ 0 := fun h0 => h ((l2norm_eq_zero_iff v).mpr h0)
    rw [hsq, div_self hne]

theorem l2normalize_nonneg {v : List ℝ} (hv : ∀ x ∈ v, 0 ≤ x) :
    ∀ x ∈ l2normalize v, 0 ≤ x := by
  intro x hx
  rw [l2normalize] at hx
  split at hx
  · exact hv x hx
  · obtain ⟨y, hy, rfl⟩ := List.mem_map.mp hx
    exact div_nonneg (hv y hy) (l2norm_nonneg v)

theorem l2normalize_of_zero {v : List ℝ} (hv : ∀ x ∈ v, x = 0) : l2normalize v = v := by
  rw [l2normalize, if_pos ((l2norm_eq_zero_iff v).mpr (dot_eq_zero_left hv v))]

theorem cosine_similarity_bounds {u v : List ℝ} (hu : ∀ x ∈ u, 0 ≤ x)
    (hv : ∀ x ∈ v, 0 ≤ x) :
    0 ≤ cosine_similarity u v ∧ cosine_similarity u v ≤ 1 := by
  constructor
  · exact dot_nonneg (l2normalize_nonneg hu) (l2normalize_nonneg hv)
  · have h := dot_le_avg (l2normalize u) (l2normalize v)
    have h1 := dot_self_l2normalize_le_one u
    have h2 := dot_self_l2normalize_le_one v
    simp only [cosine_similarity]
    linarith

/-! ### Non-negativity of the tf-idf weights -/

theorem idfValue_nonneg {n d : Nat} (h : d ≤ n) : 0 ≤ idfValue n d := by
  unfold idfValue
  have hd : (0 : ℝ) < 1 + (d : ℝ) := by positivity
  have hdn : (d : ℝ) ≤ (n : ℝ) := Nat.cast_le.mpr h
  have h1 : (1 : ℝ) ≤ (1 + (n : ℝ)) / (1 + (d : ℝ)) := by
    rw [le_div_iff₀ hd]
    linarith
  have := Real.log_nonneg h1
  linarith

theorem idfs_nonneg (ts : List String) : ∀ w ∈ idfs ts, 0 ≤ w := by
  intro w hw
  simp only [idfs, List.mem_map] at hw
  obtain ⟨t, _, rfl⟩ := hw
  exact idfValue_nonneg (List.countP_le_length _)

theorem rawVec_nonneg {vocab : List String} {idfv : List ℝ}
    (hw : ∀ w ∈ idfv, 0 ≤ w) (text : String) :
    ∀ x ∈ rawVec vocab idfv text, 0 ≤ x := by
  intro x hx
  simp only [rawVec, List.mem_map] at hx
  obtain ⟨p, hp, rfl⟩ := hx
  exact mul_nonneg (Nat.cast_nonneg _) (hw p.2 (List.of_mem_zip hp).2)

theorem transform_nonneg {vocab : List String} {idfv : List ℝ}
    (hw : ∀ w ∈ idfv, 0 ≤ w) (text : String) :
    ∀ x ∈ transform vocab idfv text, 0 ≤ x := by
  simp only [transform]
  exact l2normalize_nonneg (rawVec_nonneg hw text)

theorem simsOf_buildData_bounds (cs : List Chunk) (q : String) :
    ∀ x ∈ simsOf (buildData cs) q, 0 ≤ x ∧ x ≤ 1 := by
  intro x hx
  simp only [simsOf, buildData, List.mem_map] at hx
  obtain ⟨row, hrow, rfl⟩ := hx
  obtain ⟨t, _, rfl⟩ := hrow
  exact cosine_similarity_bounds (transform_nonneg (idfs_nonneg _) q)
    (transform_nonneg (idfs_nonneg _) t)

theorem getD_prop {P : ℝ → Prop} {xs : List ℝ} {d : ℝ} (h : ∀ x ∈ xs, P x)
    (hd : P d) (i : Nat) : P (xs.getD i d) := by
  by_cases hi : i < xs.length
  · rw [List.getD_eq_getElem xs d hi]
    exact h _ (List.getElem_mem hi)
  · rw [List.getD_eq_default xs d (Nat.le_of_not_lt hi)]
    exact hd

/-! ### Lemmas about the modelled `argsort()[::-1]` -/

theorem argsortDesc_perm (xs : List ℝ) :
    (argsortDesc xs).Perm (List.range xs.length) := by
  unfold argsortDesc
  exact (List.reverse_perm _).trans (List.perm_insertionSort _ _)

theorem length_argsortDesc (xs : List ℝ) : (argsortDesc xs).length = xs.length := by
  rw [(argsortDesc_perm xs).length_eq, List.length_range]

theorem argsortDesc_pairwise (xs : List ℝ) :
    (argsortDesc xs).Pairwise (fun i j => simLe xs j i ∧ i ≠ j) := by
  have hs : List.Pairwise (simLe xs) (List.insertionSort (simLe xs) (List.range xs.length)) :=
    List.sorted_insertionSort (simLe xs) (List.range xs.length)
  have hrev : (argsortDesc xs).Pairwise (fun i j => simLe xs j i) := by
    unfold argsortDesc
    exact List.pairwise_reverse.mpr hs
  have hnd : (argsortDesc xs).Nodup :=
    (argsortDesc_perm xs).symm.nodup (List.nodup_range _)
  exact hrev.and hnd

theorem getD_replicate (n i : Nat) : (List.replicate n (0 : ℝ)).getD i 0 = 0 := by
  by_cases hi : i < n
  · rw [List.getD_eq_getElem _ _ (by simpa using hi)]
    simp
  · rw [List.getD_eq_default _ _ (by simpa using Nat.le_of_not_lt hi)]

theorem argsortDesc_replicate (n : Nat) :
    argsortDesc (List.replicate n (0 : ℝ)) = (List.range n).reverse := by
  unfold argsortDesc
  rw [List.length_replicate]
  congr 1
  apply List.Sorted.insertionSort_eq
  refine List.Pairwise.imp ?_ (List.pairwise_lt_range n)
  intro i j hij
  exact Or.inr ⟨by rw [getD_replicate, getD_replicate], Nat.le_of_lt hij⟩

/-! ### Lemmas about the built snapshot and the similarity row -/

theorem buildData_chunks (cs : List Chunk) : (buildData cs).chunks = cs := rfl

theorem buildData_vocab (cs : List Chunk) :
    (buildData cs).vocab = vocabulary (cs.map Chunk.text) := rfl

theorem buildData_idf (cs : List Chunk) :
    (buildData cs).idf = idfs (cs.map Chunk.text) := rfl

theorem buildData_matrix (cs : List Chunk) :
    (buildData cs).matrix = (cs.map Chunk.text).map
      (fun t => transform (vocabulary (cs.map Chunk.text)) (idfs (cs.map Chunk.text)) t) := rfl

theorem simsOf_buildData_length (cs : List Chunk) (q : String) :
    (simsOf (buildData cs) q).length = cs.length := by
  unfold simsOf
  rw [List.length_map, buildData_matrix, List.length_map, List.length_map]

/-- When every analyzer token of the query is out of vocabulary (out of
the corpus, or a stop word — stop words never enter the vocabulary), the
query's tf-idf vector is zero and every similarity is zero. -/
theorem simsOf_buildData_oov (cs : List Chunk) (q : String)
    (hq : ∀ t ∈ analyze q, t ∉ vocabulary (cs.map Chunk.text)) :
    simsOf (buildData cs) q = List.replicate cs.length 0 := by
  have hraw : ∀ x ∈ rawVec (buildData cs).vocab (buildData cs).idf q, x = 0 := by
    intro x hx
    simp only [rawVec, List.mem_map] at hx
    obtain ⟨p, hp, rfl⟩ := hx
    have hp1 : p.1 ∈ vocabulary (cs.map Chunk.text) := by
      have := (List.of_mem_zip hp).1
      rwa [buildData_vocab] at this
    have hnot : p.1 ∉ analyze q := fun hmem => hq p.1 hmem hp1
    rw [List.count_eq_zero.mpr hnot]
    simp
  have htr : ∀ x ∈ transform (buildData cs).vocab (buildData cs).idf q, x = 0 := by
    unfold transform
    rw [l2normalize_of_zero hraw]
    exact hraw
  have hmem : ∀ x ∈ simsOf (buildData cs) q, x = 0 := by
    intro x hx
    unfold simsOf at hx
    obtain ⟨row, _, rfl⟩ := List.mem_map.mp hx
    unfold cosine_similarity
    rw [l2normalize_of_zero htr]
    exact dot_eq_zero_left htr _
  have := List.eq_replicate_of_mem hmem
  rwa [simsOf_buildData_length] at this

/-! ### Claim theorems -/

/-- C1: for every corpus that yields an empty chunk sequence (no documents
found, or all pages empty), `build_index` fails with the empty-corpus
error, aborts, and leaves the index file unchanged — no partial snapshot
is written. -/
theorem C1_empty_corpus_rejected (docs : List Doc) (indexFile : Option Snapshot)
    (h : extract_text_from_pdfs docs = []) :
    build_index true docs = Except.error BuildError.emptyCorpus ∧
    run_build_index true docs indexFile = indexFile := by
  have hv : vocabulary ([] : List String) = [] := rfl
  have hb : build_index true docs = Except.error BuildError.emptyCorpus := by
    unfold build_index
    rw [h]
    simp [hv]
  refine ⟨hb, ?_⟩
  unfold run_build_index
  rw [hb]

theorem C1_witness :
    extract_text_from_pdfs [] = [] ∧
    (build_index true [] = Except.error BuildError.emptyCorpus ∧
     run_build_index true [] none = none) :=
  ⟨rfl, C1_empty_corpus_rejected [] none rfl⟩

/-- C3: a missing snapshot file at load time is the `IndexNotFoundError`
condition; the app keeps serving with `kb_index = None`, so every
subsequent search returns the empty sequence. -/
theorem C3_missing_snapshot_disables_retrieval (q : String) (k : Nat) :
    load_kb none = Except.error LoadError.indexNotFound ∧
    kbIndexAfterLoad none = none ∧
    search_kb (kbIndexAfterLoad none) q k = [] :=
  ⟨rfl, rfl, rfl⟩

/-- C8: `search_kb` returns the empty sequence — not an error — whenever
the snapshot is absent or the query strips to the empty string. -/
theorem C8_empty_input_safety (kb : Option Snapshot) (q : String) (k : Nat)
    (h : kb = none ∨ pyStrip q = "") : search_kb kb q k = [] := by
  rcases h with h | h
  · rw [h]; rfl
  · cases kb with
    | none => rfl
    | some s => simp [search_kb, h]

theorem C8_witness :
    (none = (none : Option Snapshot) ∨ pyStrip "anything" = "") ∧
    search_kb none "anything" 3 = [] :=
  ⟨Or.inl rfl, C8_empty_input_safety none "anything" 3 (Or.inl rfl)⟩

/-- C10: when the knowledge-base directory does not exist, `build_index`
fails with `FileNotFoundError` before reading any document (the result
does not depend on the documents) and before writing anything, leaving any
existing snapshot file unchanged. -/
theorem C10_missing_kb_dir (docs : List Doc) (indexFile : Option Snapshot) :
    build_index false docs = Except.error BuildError.fileNotFound ∧
    build_index false docs = build_index false [] ∧
    run_build_index false docs indexFile = indexFile :=
  ⟨rfl, rfl, rfl⟩

/-- C4: every chunk produced by the chunker has non-empty text; an empty
or whitespace-only page yields zero chunks; a failed extraction (the
`none` page) yields zero chunks without aborting the build (the chunker
is a total function over all documents); and for every page the produced
chunks concatenate, in output order, to exactly that page's
whitespace-normalized text — no overlap, no characters dropped. -/
theorem C4_chunker_invariants (docs : List Doc) (name : String) (i : Nat)
    (p : Option String) (h : normalizeWs (pageText p) = "") :
    (extract_text_from_pdfs docs).Forall (fun c => c.text ≠ "") ∧
    pageChunks name i p = [] ∧
    (∀ nm j, pageChunks nm j none = []) ∧
    (∀ nm j q, ((pageChunks nm j q).map (fun c => c.text.data)).flatten
        = (normalizeWs (pageText q)).data) := by
  refine ⟨?_, pageChunks_of_blank h, fun nm j => pageChunks_none nm j,
    fun nm j q => pageChunks_flatten nm j q⟩
  rw [List.forall_iff_forall_mem]
  exact fun c hc => mem_extract_text_ne_empty hc

theorem C4_witness :
    normalizeWs (pageText (some "   ")) = "" ∧
    ((extract_text_from_pdfs [⟨"policy.pdf", [some "vacation policy", none]⟩]).Forall
        (fun c => c.text ≠ "") ∧
     pageChunks "policy.pdf" 0 (some "   ") = [] ∧
     (∀ nm j, pageChunks nm j none = []) ∧
     (∀ nm j q, ((pageChunks nm j q).map (fun c => c.text.data)).flatten
        = (normalizeWs (pageText q)).data)) :=
  ⟨by decide,
   C4_chunker_invariants [⟨"policy.pdf", [some "vacation policy", none]⟩]
     "policy.pdf" 0 (some "   ") (by decide)⟩

/-- C5: chunks are fixed-size non-overlapping windows of at most 900
characters of the normalized page text, only the final window possibly
shorter; a page whose normalized text has exactly 900 characters yields
exactly one chunk (the whole text), and one of 901 characters yields two
chunks of lengths 900 and 1. -/
theorem C5_window_sizes (name : String) (i : Nat) (p₁ p₂ : Option String)
    (h₁ : (normalizeWs (pageText p₁)).length = 900)
    (h₂ : (normalizeWs (pageText p₂)).length = 901) :
    (∀ nm j q, (pageChunks nm j q).Forall (fun c => c.text.length ≤ 900)) ∧
    (∀ nm j q k, k + 1 < (pageChunks nm j q).length →
        ((pageChunks nm j q).getD k default).text.length = 900) ∧
    (pageChunks name i p₁).map (fun c => c.text) = [normalizeWs (pageText p₁)] ∧
    (pageChunks name i p₂).map (fun c => c.text.length) = [900, 1] := by
  refine ⟨?_, ?_, ?_, ?_⟩
  · intro nm j q
    rw [List.forall_iff_forall_mem]
    intro c hc
    rw [pageChunks] at hc
    by_cases hb : normalizeWs (pageText q) = ""
    · simp [hb] at hc
    · simp only [if_neg hb, List.mem_map] at hc
      obtain ⟨w, hw, rfl⟩ := hc
      exact (mem_windows hw).2
  · intro nm j q k hk
    by_cases hb : normalizeWs (pageText q) = ""
    · rw [pageChunks_of_blank hb] at hk
      simp at hk
    · rw [pageChunks] at hk ⊢
      simp only [if_neg hb] at hk ⊢
      rw [List.length_map] at hk
      have hk' : k < (windows (normalizeWs (pageText q)).data).length := by omega
      rw [List.getD_eq_getElem _ _ (by rw [List.length_map]; exact hk')]
      rw [List.getElem_map]
      have := windows_getD_length (l := (normalizeWs (pageText q)).data) (i := k)
        (by omega)
      rwa [List.getD_eq_getElem _ _ hk'] at this
  · have hne : normalizeWs (pageText p₁) ≠ "" := by
      intro e
      rw [e] at h₁
      simp at h₁
    rw [pageChunks]
    simp only [if_neg hne]
    have hd : (normalizeWs (pageText p₁)).data ≠ [] := by
      intro hd
      apply hne
      have : normalizeWs (pageText p₁) = String.mk (normalizeWs (pageText p₁)).data := rfl
      rw [this, hd]
    have hw : windows (normalizeWs (pageText p₁)).data = [(normalizeWs (pageText p₁)).data] :=
      windows_of_le hd (by exact le_of_eq h₁)
    rw [hw]
    rfl
  · have hne : normalizeWs (pageText p₂) ≠ "" := by
      intro e
      rw [e] at h₂
      simp at h₂
    rw [pageChunks]
    simp only [if_neg hne]
    have hw : windows (normalizeWs (pageText p₂)).data
        = [(normalizeWs (pageText p₂)).data.take 900, (normalizeWs (pageText p₂)).data.drop 900] :=
      windows_of_901 h₂
    rw [hw]
    have hl : ((normalizeWs (pageText p₂)).data).length = 901 := h₂
    have e1 : ((normalizeWs (pageText p₂)).data.take 900).length = 900 := by
      rw [List.length_take]
      omega
    have e2 : ((normalizeWs (pageText p₂)).data.drop 900).length = 1 := by
      rw [List.length_drop]
      omega
    show [((normalizeWs (pageText p₂)).data.take 900).length,
          ((normalizeWs (pageText p₂)).data.drop 900).length] = [900, 1]
    rw [e1, e2]

theorem C5_witness :
    (normalizeWs (pageText (some (String.mk (List.replicate 900 'a'))))).length = 900 ∧
    (normalizeWs (pageText (some (String.mk (List.replicate 901 'a'))))).length = 901 ∧
    ((∀ nm j q, (pageChunks nm j q).Forall (fun c => c.text.length ≤ 900)) ∧
     (∀ nm j q k, k + 1 < (pageChunks nm j q).length →
        ((pageChunks nm j q).getD k default).text.length = 900) ∧
     (pageChunks "hr.pdf" 0 (some (String.mk (List.replicate 900 'a')))).map (fun c => c.text)
        = [normalizeWs (pageText (some (String.mk (List.replicate 900 'a'))))] ∧
     (pageChunks "hr.pdf" 0 (some (String.mk (List.replicate 901 'a')))).map
        (fun c => c.text.length) = [900, 1]) :=
  ⟨by decide, by decide,
   C5_window_sizes "hr.pdf" 0 (some (String.mk (List.replicate 900 'a')))
     (some (String.mk (List.replicate 901 'a'))) (by decide) (by decide)⟩

/-- C6: every score returned by `search_kb` over a built snapshot lies in
the interval [0, 1]: it is the cosine similarity of two L2-normalized
vectors with non-negative entries. -/
theorem C6_score_bounds (cs : List Chunk) (q : String) (k : Nat) :
    (search_kb (some (buildData cs)) q k).Forall (fun r => 0 ≤ r.score ∧ r.score ≤ 1) := by
  rw [List.forall_iff_forall_mem]
  intro r hr
  by_cases h : pyStrip q = ""
  · simp [search_kb, h] at hr
  · simp only [search_kb, if_neg h] at hr
    obtain ⟨idx, _, rfl⟩ := List.mem_map.mp hr
    exact getD_prop (simsOf_buildData_bounds cs q) ⟨le_refl 0, by norm_num⟩ idx

/-- C7: the first k₁ results of a top-k₂ search are exactly the top-k₁
search (for k₁ < k₂, over any snapshot and query), and when top_k is at
least the number of chunks a search with a non-blank query returns all
chunks ranked — no padding, no error. -/
theorem C7_topk_monotone (kb : Option Snapshot) (q : String) (k₁ k₂ : Nat)
    (cs : List Chunk) (q' : String) (k : Nat)
    (h12 : k₁ < k₂) (hq : pyStrip q' ≠ "") (hk : cs.length ≤ k) :
    (search_kb kb q k₂).take k₁ = search_kb kb q k₁ ∧
    (search_kb (some (buildData cs)) q' k).length = cs.length := by
  constructor
  · cases kb with
    | none => simp [search_kb]
    | some s =>
      by_cases h : pyStrip q = ""
      · simp [search_kb, h]
      · simp only [search_kb, if_neg h]
        rw [List.map_take, List.map_take, List.take_take]
        congr 1
        omega
  · simp only [search_kb, if_neg hq]
    rw [List.length_map, List.length_take, length_argsortDesc, simsOf_buildData_length]
    omega

theorem C7_witness :
    (1 < 2 ∧ pyStrip "overtime" ≠ "" ∧ ([] : List Chunk).length ≤ 3) ∧
    ((search_kb none "overtime" 2).take 1 = search_kb none "overtime" 1 ∧
     (search_kb (some (buildData [])) "overtime" 3).length = ([] : List Chunk).length) :=
  ⟨⟨by decide, by decide, by decide⟩,
   C7_topk_monotone none "overtime" 1 2 [] "overtime" 3 (by decide) (by decide) (by decide)⟩

/-- C9: a non-whitespace query all of whose analyzer tokens are out of
vocabulary (unknown words or stop words — the query tf-idf vector is
zero) still returns min(top_k, N) scored chunks, each with score 0; no
minimum-relevance threshold filters zero-score chunks out. -/
theorem C9_zero_vector_query (cs : List Chunk) (q : String) (k : Nat)
    (hq : pyStrip q ≠ "")
    (hoov : ∀ t ∈ analyze q, t ∉ vocabulary (cs.map Chunk.text)) :
    (search_kb (some (buildData cs)) q k).length = min k cs.length ∧
    (search_kb (some (buildData cs)) q k).Forall (fun r => r.score = 0) := by
  constructor
  · simp only [search_kb, if_neg hq]
    rw [List.length_map, List.length_take, length_argsortDesc, simsOf_buildData_length]
  · rw [List.forall_iff_forall_mem]
    intro r hr
    simp only [search_kb, if_neg hq] at hr
    obtain ⟨idx, _, rfl⟩ := List.mem_map.mp hr
    show (simsOf (buildData cs) q).getD idx 0 = 0
    rw [simsOf_buildData_oov cs q hoov, getD_replicate]

theorem C9_witness :
    (pyStrip "zzzz" ≠ "" ∧
     (∀ t ∈ analyze "zzzz",
        t ∉ vocabulary (List.map Chunk.text [{ source := "a.pdf", page := 1, text := "vacation" }]))) ∧
    ((search_kb (some (buildData [{ source := "a.pdf", page := 1, text := "vacation" }])) "zzzz" 3).length
        = min 3 (List.length [{ source := "a.pdf", page := 1, text := "vacation" : Chunk }]) ∧
     (search_kb (some (buildData [{ source := "a.pdf", page := 1, text := "vacation" }])) "zzzz" 3).Forall
        (fun r => r.score = 0)) :=
  ⟨⟨by decide, by decide⟩,
   C9_zero_vector_query [{ source := "a.pdf", page := 1, text := "vacation" }] "zzzz" 3
     (by decide) (by decide)⟩

/-- C2 (amended): for every built snapshot, non-blank query and top_k, the
returned sequence is the prefix of the full ranking, which is ordered by
non-increasing score; but two chunks with identical scores appear in
REVERSED corpus order (the later-indexed chunk first), because the code
sorts the similarities ascending (`argsort`, modelled as stable) and then
reverses the index list. -/
theorem C2_ordering (cs : List Chunk) (q : String) (k : Nat) (hq : pyStrip q ≠ "") :
    search_kb (some (buildData cs)) q k
      = ((argsortDesc (simsOf (buildData cs) q)).take k).map
          (resultAt (buildData cs) (simsOf (buildData cs) q)) ∧
    ((argsortDesc (simsOf (buildData cs) q)).take k).Pairwise
      (fun i j => (simsOf (buildData cs) q).getD j 0 < (simsOf (buildData cs) q).getD i 0 ∨
        ((simsOf (buildData cs) q).getD i 0 = (simsOf (buildData cs) q).getD j 0 ∧ j < i)) := by
  constructor
  · simp only [search_kb, if_neg hq]
  · have hp := List.Pairwise.sublist (List.take_sublist k _)
      (argsortDesc_pairwise (simsOf (buildData cs) q))
    refine hp.imp ?_
    rintro i j ⟨hle, hne⟩
    rcases hle with h | ⟨heq, hji⟩
    · exact Or.inl h
    · exact Or.inr ⟨heq.symm, Nat.lt_of_le_of_ne hji (fun e => hne e.symm)⟩

theorem C2_ordering_witness :
    pyStrip "vacation policy" ≠ "" ∧
    (search_kb (some (buildData [])) "vacation policy" 3
      = ((argsortDesc (simsOf (buildData []) "vacation policy")).take 3).map
          (resultAt (buildData []) (simsOf (buildData []) "vacation policy")) ∧
     ((argsortDesc (simsOf (buildData []) "vacation policy")).take 3).Pairwise
      (fun i j => (simsOf (buildData []) "vacation policy").getD j 0
          < (simsOf (buildData []) "vacation policy").getD i 0 ∨
        ((simsOf (buildData []) "vacation policy").getD i 0
            = (simsOf (buildData []) "vacation policy").getD j 0 ∧ j < i))) :=
  ⟨by decide, C2_ordering [] "vacation policy" 3 (by decide)⟩

/-! ### Concrete evaluation of the tie-breaking counterexample

Corpus: two chunks with identical text "vacation" (sources `a.pdf` and
`b.pdf`, corpus order a before b); query "vacation".  Both similarities
are exactly 1, and the search returns `b.pdf` before `a.pdf`. -/

theorem ce_texts : ceChunks.map Chunk.text = ["vacation", "vacation"] := rfl

theorem ce_vocabulary : vocabulary ["vacation", "vacation"] = ["vacation"] := by decide

theorem ce_df : df ["vacation", "vacation"] "vacation" = 2 := by decide

theorem ce_idfValue : idfValue 2 2 = 1 := by
  unfold idfValue
  have h : (1 + ((2 : Nat) : ℝ)) / (1 + ((2 : Nat) : ℝ)) = 1 := by norm_num
  rw [h, Real.log_one]
  norm_num

theorem ce_idfs : idfs ["vacation", "vacation"] = [1] := by
  unfold idfs
  rw [ce_vocabulary]
  simp only [List.map_cons, List.map_nil]
  rw [show (["vacation", "vacation"] : List String).length = 2 from rfl, ce_df, ce_idfValue]

theorem ce_rawVec : rawVec ["vacation"] [1] "vacation" = [1] := by
  unfold rawVec
  simp only [List.zip_cons_cons, List.zip_nil_right, List.map_cons, List.map_nil]
  rw [show (analyze "vacation").count "vacation" = 1 from by decide]
  norm_num

theorem ce_dot_one : dot [(1 : ℝ)] [1] = 1 := by
  rw [dot_cons, show dot ([] : List ℝ) [] = 0 from rfl]
  norm_num

theorem ce_l2normalize : l2normalize [(1 : ℝ)] = [1] := by
  unfold l2normalize l2norm
  rw [ce_dot_one, Real.sqrt_one, if_neg one_ne_zero]
  norm_num

theorem ce_transform :
    transform (vocabulary ["vacation", "vacation"]) (idfs ["vacation", "vacation"]) "vacation"
      = [1] := by
  rw [ce_vocabulary, ce_idfs]
  unfold transform
  rw [ce_rawVec, ce_l2normalize]

theorem ce_matrix : (buildData ceChunks).matrix = [[1], [1]] := by
  rw [buildData_matrix, ce_texts]
  simp only [List.map_cons, List.map_nil]
  rw [ce_transform]

theorem ce_cosine : cosine_similarity [(1 : ℝ)] [1] = 1 := by
  unfold cosine_similarity
  rw [ce_l2normalize, ce_dot_one]

theorem ce_sims : simsOf (buildData ceChunks) "vacation" = [1, 1] := by
  unfold simsOf
  rw [ce_matrix, buildData_vocab, buildData_idf, ce_texts, ce_transform]
  simp only [List.map_cons, List.map_nil]
  rw [ce_cosine]

theorem ce_simLe01 : simLe [(1 : ℝ), 1] 0 1 := Or.inr ⟨rfl, by omega⟩

theorem ce_argsort : argsortDesc [(1 : ℝ), 1] = [1, 0] := by
  unfold argsortDesc
  rw [show ([(1 : ℝ), 1]).length = 2 from rfl, show List.range 2 = [0, 1] from rfl]
  simp only [List.insertionSort, List.orderedInsert]
  rw [if_pos ce_simLe01]
  rfl

/-- C2 counterexample: on the two-chunk tie corpus, both returned scores
are exactly 1 (a tie), yet the sources come back as `b.pdf` before
`a.pdf` — the reverse of the original corpus order, refuting the claim
that equal-score chunks retain their original corpus order. -/
theorem C2_counterexample :
    (search_kb (some (buildData ceChunks)) "vacation" 2).map (fun r => r.score) = [1, 1] ∧
    (search_kb (some (buildData ceChunks)) "vacation" 2).map (fun r => r.source)
        = ["b.pdf", "a.pdf"] ∧
    (search_kb (some (buildData ceChunks)) "vacation" 2).map (fun r => r.source)
        ≠ ["a.pdf", "b.pdf"] := by
  have hq : pyStrip "vacation" ≠ "" := by decide
  have hs : search_kb (some (buildData ceChunks)) "vacation" 2
      = ((argsortDesc (simsOf (buildData ceChunks) "vacation")).take 2).map
          (resultAt (buildData ceChunks) (simsOf (buildData ceChunks) "vacation")) := by
    simp only [search_kb, if_neg hq]
  rw [hs, ce_sims, ce_argsort]
  refine ⟨rfl, rfl, ?_⟩
  intro h
  have := congrArg (fun l => List.getD l 0 "") h
  simp [resultAt, buildData_chunks, ceChunks] at this

end KinnecktHR
